import Mathlib

/-!
# Verification of `standoff.py` (simonwiles/standoff)

A shallow embedding of the single-module standoff converter.  Python strings
are modelled as `List Char` (the module itself manipulates `plain_text` as a
list of characters); Python dicts as association lists with no duplicate keys;
fallible operations (`KeyError` from `self.reverse_nsmap[ns]`, the `ValueError`
of tuple unpacking in `proc_ns`) return `Except`.  All offsets produced by the
code come from `len(...)` and are therefore modelled as `Nat`.
-/

abbrev Str := List Char

/-- The character `\x7b` (left curly brace), written via its code point. -/
def lbrace : Char := Char.ofNat 123

/-- The character `\x7d` (right curly brace), written via its code point. -/
def rbrace : Char := Char.ofNat 125

/-- The apostrophe character. -/
def aposChar : Char := Char.ofNat 39

/-- `text.replace(find, replace)` for a single-character needle: every
occurrence of the character `find` is replaced by the string `rep`. -/
def replaceChar (find : Char) (rep : Str) : Str → Str
  | [] => []
  | c :: cs => (if c = find then rep else [c]) ++ replaceChar find rep cs

/-- `xml_safe` (src/standoff.py lines 22-36): `None` becomes the empty string;
otherwise the five replacements are applied sequentially in source order
`&`, `"`, `'`, `<`, `>`. -/
def xml_safe : Option Str → Str
  | none => []
  | some t =>
      replaceChar '>' ("&gt;".toList)
        (replaceChar '<' ("&lt;".toList)
          (replaceChar aposChar ("&apos;".toList)
            (replaceChar '"' ("&quot;".toList)
              (replaceChar '&' ("&amp;".toList) t))))

/-- Python `str.split(sep)` for the single-character separator `\x7d`,
on `List Char`.  `[].split` yields `[[]]`, matching `''.split('\x7d') == ['']`. -/
def splitOnRBrace : Str → List Str
  | [] => [[]]
  | c :: cs =>
      match splitOnRBrace cs with
      | [] => if c = rbrace then [[], []] else [[c]]
      | h :: t => if c = rbrace then [] :: h :: t else (c :: h) :: t

/-- Python dict lookup `d[k]` on an association list: first matching key. -/
def dictLookup (k : Str) : List (Str × Str) → Option Str
  | [] => none
  | (k', v) :: t => if k' = k then some v else dictLookup k t

/-- Lookup in the reverse namespace map (`uri -> Optional[prefix]`);
`none` models a `KeyError`. -/
def nsLookup (k : Str) : List (Str × Option Str) → Option (Option Str)
  | [] => none
  | (k', v) :: t => if k' = k then some v else nsLookup k t

/-- Errors surfaced by `proc_ns`: `keyError` for `self.reverse_nsmap[ns]` on a
missing URI, `valueError` for the 2-tuple unpacking of `tag[1:].split('\x7d')`. -/
inductive NsErr where
  | keyError
  | valueError
deriving DecidableEq, Repr

/-- `http://www.w3.org/XML/1998/namespace` as a character list. -/
def xmlNsUri : Str := "http://www.w3.org/XML/1998/namespace".toList

/-- `StandoffDoc.proc_ns` (src/standoff.py lines 53-65), with the reverse
namespace map passed explicitly (it is the only piece of `self` the method
reads). -/
def proc_ns (reverse_nsmap : List (Str × Option Str)) (tag : Str) :
    Except NsErr Str :=
  if rbrace ∈ tag then
    match splitOnRBrace (tag.drop 1) with
    | [ns, tagname] =>
        if ns = xmlNsUri then
          .ok ("xml:".toList ++ tagname)
        else
          match nsLookup ns reverse_nsmap with
          | none => .error .keyError
          | some none => .ok tagname
          | some (some p) => .ok (p ++ ':' :: tagname)
    | _ => .error .valueError
  else
    .ok tag

/-- One entry of `self.standoffs`.  Decomposition-produced entries carry
`begin_sort`/`end_sort`; entries appended by `add_annotation` do not (the
renderer reads them with `.get(..., 0)`), hence `Option Nat`. -/
structure Standoff where
  begin : Nat
  end_ : Nat
  tag : Str
  attrib : List (Str × Str)
  depth : Nat
  begin_sort : Option Nat
  end_sort : Option Nat
deriving DecidableEq, Repr

mutual

/-- An lxml element: tag (raw, possibly `\x7buri\x7dlocal`), attributes,
text, children (in document order) and tail. -/
inductive XElem where
  | mk (tag : Str) (attrib : List (Str × Str)) (text : Option Str)
      (children : XElemList) (tail : Option Str)

/-- A list of sibling elements (mutual with `XElem` to keep structural
recursion simple). -/
inductive XElemList where
  | nil
  | cons (head : XElem) (tail : XElemList)

end

mutual

/-- `parse_element` inside `StandoffDoc.xml_to_standoff` (src/standoff.py
lines 70-92): the mutable `plain_text` list and `self.standoffs` are threaded
explicitly; the result is the updated pair.  `begin`/`begin_sort` are recorded
before the element's text is appended, `end`/`end_sort` after the children and
before the tail, and the completed annotation is appended post-order. -/
def parse_element (rns : List (Str × Option Str)) (e : XElem) (depth : Nat)
    (pt : Str) (so : List Standoff) : Except NsErr (Str × List Standoff) :=
  match e with
  | .mk tag attrib text children tail =>
      match proc_ns rns tag with
      | .error er => .error er
      | .ok ptag =>
          let b := pt.length
          let bs := (so.filter fun s => s.begin == b).length
          let pt1 := pt ++ xml_safe text
          match parse_children rns children (depth + 1) pt1 so with
          | .error er => .error er
          | .ok (pt2, so2) =>
              let e_ := pt2.length
              let es := (so2.filter fun s => s.end_ == e_).length
              .ok (pt2 ++ xml_safe tail,
                so2 ++ [⟨b, e_, ptag, attrib, depth, some bs, some es⟩])

/-- The `for subelement in element` loop of `parse_element`. -/
def parse_children (rns : List (Str × Option Str)) (es : XElemList)
    (depth : Nat) (pt : Str) (so : List Standoff) :
    Except NsErr (Str × List Standoff) :=
  match es with
  | .nil => .ok (pt, so)
  | .cons e rest =>
      match parse_element rns e depth pt so with
      | .error er => .error er
      | .ok (pt', so') => parse_children rns rest depth pt' so'

end

/-- `StandoffDoc.xml_to_standoff` (src/standoff.py lines 67-94): start from an
empty buffer and empty annotation list and parse the root at depth 0. -/
def xml_to_standoff (rns : List (Str × Option Str)) (root : XElem) :
    Except NsErr (Str × List Standoff) :=
  parse_element rns root 0 [] []

/-- The document object: the namespace map captured from the root element, its
reversal, and the state produced by decomposition. -/
structure StandoffDoc where
  nsmap : List (Option Str × Str)
  reverse_nsmap : List (Str × Option Str)
  plain_text : Str
  standoffs : List Standoff
deriving DecidableEq, Repr

/-- The dict comprehension `{value: key for key, value in self.nsmap.items()}`:
later entries overwrite earlier ones. -/
def reverse_of_nsmap (m : List (Option Str × Str)) : List (Str × Option Str) :=
  m.foldl (fun acc p => insertOver acc p.2 p.1) []
where
  /-- Python dict assignment on an association list. -/
  insertOver : List (Str × Option Str) → Str → Option Str →
      List (Str × Option Str)
    | [], k, v => [(k, v)]
    | (k', v') :: t, k, v =>
        if k' = k then (k, v) :: t else (k', v') :: insertOver t k v

/-- `StandoffDoc.__init__` (src/standoff.py lines 41-48) after the external
`get_root_element` call: capture `nsmap`, reverse it, decompose. -/
def standoffDoc_init (nsmap : List (Option Str × Str)) (root : XElem) :
    Except NsErr StandoffDoc :=
  let rns := reverse_of_nsmap nsmap
  match xml_to_standoff rns root with
  | .error er => .error er
  | .ok (pt, so) => .ok ⟨nsmap, rns, pt, so⟩

/-- `attrs_equal` inside `is_duplicate_annotation` (src/standoff.py lines
228-234): count the keys of `attr_a` that are present in `attr_b` with an
equal value, and require `len(attr_a) == len(attr_b) == len(shared_items)`.
A Python dict never holds a duplicate key, so for the association lists in
scope the entry value `kv.2` is exactly `attr_a[k]`. -/
def attrs_equal (attr_a attr_b : List (Str × Str)) : Bool :=
  let shared := attr_a.filter fun kv =>
    match dictLookup kv.1 attr_b with
    | some w => w = kv.2
    | none => false
  (attr_a.length == attr_b.length) && (attr_b.length == shared.length)

/-- `StandoffDoc.is_duplicate_annotation` (src/standoff.py lines 215-242). -/
def is_duplicate_annot (so : List Standoff) (b e : Nat) (tag : Str)
    (attribute_ : List (Str × Str)) : Bool :=
  so.any fun s =>
    s.begin == b && s.end_ == e && s.tag == tag && attrs_equal attribute_ s.attrib

/-- `StandoffDoc.add_annotation` (src/standoff.py lines 192-213): append
unless `unique` and a duplicate exists; `depth` of `None` is stored as 0; no
`begin_sort`/`end_sort` are recorded. -/
def add_annot (so : List Standoff) (b e : Nat) (tag : Str)
    (depth : Option Nat) (attribute_ : List (Str × Str))
    (unique : Bool := true) : List Standoff :=
  if !unique || !is_duplicate_annot so b e tag attribute_ then
    so ++ [⟨b, e, tag, attribute_, depth.getD 0, none, none⟩]
  else
    so

/-- Stable insertion into an already-processed suffix: the new element goes in
front of the first element it compares `le` to.  Together with `pySorted` this
models the (stable) Python `sorted`/`list.sort`. -/
def pyInsert (le : α → α → Bool) (x : α) : List α → List α
  | [] => [x]
  | y :: ys => if le x y then x :: y :: ys else y :: pyInsert le x ys

/-- Python's stable `sorted(l, key=...)`, modelled as insertion sort: elements
comparing equal keep their original relative order. -/
def pySorted (le : α → α → Bool) (l : List α) : List α :=
  l.foldr (pyInsert le) []

/-- Entry `idx` of `standoff_begin_lookup` (src/standoff.py lines 105-115):
the arrays of length `len(plain_text) + 1` are filled by one pass over
`self.standoffs`, so slot `idx` holds, in store order, the non-empty
annotations with `begin == idx`. -/
def standoff_begin_lookup (so : List Standoff) (idx : Nat) : List Standoff :=
  so.filter fun s => !(s.begin == s.end_) && s.begin == idx

/-- Entry `idx` of `standoff_end_lookup`: non-empty annotations whose
`end == idx`, in store order. -/
def standoff_end_lookup (so : List Standoff) (idx : Nat) : List Standoff :=
  so.filter fun s => !(s.begin == s.end_) && s.end_ == idx

/-- Entry `idx` of `standoff_empty_lookup`: annotations with
`begin == end == idx`, in store order. -/
def standoff_empty_lookup (so : List Standoff) (idx : Nat) : List Standoff :=
  so.filter fun s => s.begin == s.end_ && s.begin == idx

/-- Comparator for `sorted(..., key=itemgetter('depth'))`. -/
def depth_asc (a b : Standoff) : Bool := decide (a.depth ≤ b.depth)

/-- Comparator for `sorted(..., key=itemgetter('depth'), reverse=True)`
(stability preserved: Python does not reverse ties). -/
def depth_desc (a b : Standoff) : Bool := decide (b.depth ≤ a.depth)

/-- The key of the final in-place `all_standoffs.sort` in `render_tags`
(src/standoff.py line 163): `begin_sort` when the annotation begins at `idx`,
else `end_sort`, defaulting to 0. -/
def sort_key (idx : Nat) (s : Standoff) : Nat :=
  if s.begin == idx then s.begin_sort.getD 0 else s.end_sort.getD 0

/-- Comparator induced by `sort_key`. -/
def key_le (idx : Nat) (a b : Standoff) : Bool :=
  decide (sort_key idx a ≤ sort_key idx b)

/-- The order in which `render_tags` (src/standoff.py lines 153-163) emits the
annotations of offset `idx`: concatenate the closing annotations sorted by
descending depth with the empty-plus-opening annotations sorted by ascending
depth, then stably re-sort the whole list by `sort_key`. -/
def render_order (so : List Standoff) (idx : Nat) : List Standoff :=
  pySorted (key_le idx)
    (pySorted depth_desc (standoff_end_lookup so idx) ++
      pySorted depth_asc
        (standoff_empty_lookup so idx ++ standoff_begin_lookup so idx))

/-- The comprehension inside `render_attribs` (src/standoff.py lines 150-151):
each attribute renders as `key="value"` with the key namespace-resolved and
the value embedded as stored. -/
def render_attrib_items (rns : List (Str × Option Str)) :
    List (Str × Str) → Except NsErr (List Str)
  | [] => .ok []
  | (k, v) :: t =>
      match proc_ns rns k with
      | .error er => .error er
      | .ok pk =>
          match render_attrib_items rns t with
          | .error er => .error er
          | .ok rest => .ok ((pk ++ '=' :: '"' :: v ++ ['"']) :: rest)

/-- `render_attribs` (src/standoff.py lines 147-151): empty attributes render
as the empty string, otherwise a space followed by the space-joined items. -/
def render_attribs (rns : List (Str × Option Str))
    (attribs : List (Str × Str)) : Except NsErr Str :=
  if attribs.isEmpty then .ok []
  else
    match render_attrib_items rns attribs with
    | .error er => .error er
    | .ok items => .ok (' ' :: List.intercalate [' '] items)

/-- The body of the emission loop of `render_tags` (src/standoff.py lines
169-180): self-closing when `begin == end == idx`, opening when `begin ==
idx`, closing when `end == idx` (the `elif` chain in source order; an
annotation matching none contributes nothing). -/
def render_tag (rns : List (Str × Option Str)) (idx : Nat) (s : Standoff) :
    Except NsErr Str :=
  if s.begin == idx && s.end_ == idx then
    match render_attribs rns s.attrib with
    | .error er => .error er
    | .ok a => .ok ('<' :: s.tag ++ a ++ ['/', '>'])
  else if s.begin == idx then
    match render_attribs rns s.attrib with
    | .error er => .error er
    | .ok a => .ok ('<' :: s.tag ++ a ++ ['>'])
  else if s.end_ == idx then
    .ok ('<' :: '/' :: s.tag ++ ['>'])
  else
    .ok []

/-- Concatenate the rendered tag strings of a list of annotations. -/
def render_tags_list (rns : List (Str × Option Str)) (idx : Nat) :
    List Standoff → Except NsErr Str
  | [] => .ok []
  | s :: rest =>
      match render_tag rns idx s with
      | .error er => .error er
      | .ok hd =>
          match render_tags_list rns idx rest with
          | .error er => .error er
          | .ok tl => .ok (hd ++ tl)

/-- `render_tags(idx)` (src/standoff.py lines 153-180). -/
def render_tags (rns : List (Str × Option Str)) (so : List Standoff)
    (idx : Nat) : Except NsErr Str :=
  render_tags_list rns idx (render_order so idx)

/-- `render_closing_tags(idx)` (src/standoff.py lines 134-144): closing tags
carry no attributes, so no namespace resolution can fail here. -/
def render_closing_tags (so : List Standoff) (idx : Nat) : Str :=
  ((pySorted depth_desc (standoff_end_lookup so idx)).map
    fun s => '<' :: '/' :: s.tag ++ ['>']).flatten

/-- The `for idx, char in enumerate(self.plain_text)` comprehension of
`to_xml` (src/standoff.py lines 182-185): for each character, the tags of its
offset followed by the character. -/
def render_body (rns : List (Str × Option Str)) (so : List Standoff) :
    List (Nat × Char) → Except NsErr Str
  | [] => .ok []
  | (idx, c) :: rest =>
      match render_tags rns so idx with
      | .error er => .error er
      | .ok t =>
          match render_body rns so rest with
          | .error er => .error er
          | .ok r => .ok (t ++ c :: r)

/-- The string `out_xml` assembled by `StandoffDoc.to_xml` (src/standoff.py
lines 182-187) before it is handed to the external parser: the body loop plus
`render_closing_tags(-1)`, where Python index `-1` is the last slot of the
lookup arrays, i.e. offset `len(plain_text)`. -/
def out_xml (d : StandoffDoc) : Except NsErr Str :=
  match render_body d.reverse_nsmap d.standoffs d.plain_text.enum with
  | .error er => .error er
  | .ok body => .ok (body ++ render_closing_tags d.standoffs d.plain_text.length)

/-- Failures of `to_xml`: a namespace error while rendering, or a parse error
raised by the external `etree.fromstring` validation of the result. -/
inductive ToXmlErr where
  | ns (er : NsErr)
  | parse
deriving DecidableEq, Repr

/-- `StandoffDoc.to_xml` as a state transformer.  `self.standoffs` and
`self.plain_text` are the document's mutable state; every assignment in the
method targets a local, so the embedding threads the `StandoffDoc` through
unchanged and pairs it with the outcome.  The final
`etree.tostring(etree.fromstring(out_xml), pretty_print=True)` round trip is
the external markup library, passed in as `validate`. -/
def to_xml_run (validate : Str → Except Unit Str) (d : StandoffDoc) :
    StandoffDoc × Except ToXmlErr Str :=
  (d,
    match out_xml d with
    | .error er => .error (.ns er)
    | .ok s =>
        match validate s with
        | .error _ => .error .parse
        | .ok pretty => .ok pretty)

/-- Single-pass escaping map used to characterise `xml_safe`: each of the five
XML metacharacters to its entity, every other character unchanged. -/
def escapeChar (c : Char) : Str :=
  if c = '&' then "&amp;".toList
  else if c = '"' then "&quot;".toList
  else if c = aposChar then "&apos;".toList
  else if c = '<' then "&lt;".toList
  else if c = '>' then "&gt;".toList
  else [c]

/-- The keys of a Python dict are unique: well-formedness assumption for the
association lists modelling `attrib` mappings. -/
def nodupKeys (l : List (Str × Str)) : Prop := (l.map Prod.fst).Nodup

/-- The number of annotations of the store matching `(begin, end, tag,
attrib)` under the comparison used by `is_duplicate_annotation`. -/
def matching_count (so : List Standoff) (b e : Nat) (tag : Str)
    (at_ : List (Str × Str)) : Nat :=
  (so.filter fun s =>
    s.begin == b && s.end_ == e && s.tag == tag &&
      attrs_equal at_ s.attrib).length

deriving instance DecidableEq for Except

/-- Replace only the `nsmap` field of a document (used to state that
reconstruction never reads it). -/
def set_nsmap (d : StandoffDoc) (m : List (Option Str × Str)) : StandoffDoc :=
  ⟨m, d.reverse_nsmap, d.plain_text, d.standoffs⟩

/-- The document `<r><a><b>x</b></a><c>y</c></r>`. -/
def treeNested : XElem :=
  .mk "r".toList [] none
    (.cons
      (.mk "a".toList [] none
        (.cons (.mk "b".toList [] (some "x".toList) .nil none) .nil) none)
      (.cons (.mk "c".toList [] (some "y".toList) .nil none) .nil)) none

/-- Annotation of `b` in `treeNested`. -/
def annB1 : Standoff := ⟨0, 1, "b".toList, [], 2, some 0, some 0⟩

/-- Annotation of `a` in `treeNested`: its `end_sort` is 1 because its child
`b`, appended first, already ended at offset 1. -/
def annA1 : Standoff := ⟨0, 1, "a".toList, [], 1, some 0, some 1⟩

/-- Annotation of `c` in `treeNested`. -/
def annC1 : Standoff := ⟨1, 2, "c".toList, [], 1, some 0, some 0⟩

/-- Annotation of `r` in `treeNested`. -/
def annR1 : Standoff := ⟨0, 2, "r".toList, [], 0, some 0, some 1⟩

/-- The decomposition of `treeNested`. -/
def docNested : StandoffDoc := ⟨[], [], "xy".toList, [annB1, annA1, annC1, annR1]⟩

/-- The document `<a><b/></a>` of the spec's empty-element example. -/
def treeEmptyChild : XElem :=
  .mk "a".toList [] none (.cons (.mk "b".toList [] none .nil none) .nil) none

/-- The decomposition of `treeEmptyChild`: empty flat text, both annotations
zero-width at offset 0. -/
def docEmptyChild : StandoffDoc :=
  ⟨[], [], [],
    [⟨0, 0, "b".toList, [], 1, some 0, some 0⟩,
     ⟨0, 0, "a".toList, [], 0, some 0, some 1⟩]⟩

/-- A document `<r xmlns="http://d" xmlns:p="http://p">x<p:c>y</p:c></r>`:
the root tag lives in the default namespace, the child in the prefixed one. -/
def treeNs : XElem :=
  .mk "\x7bhttp://d\x7dr".toList [] (some "x".toList)
    (.cons (.mk "\x7bhttp://p\x7dc".toList [] (some "y".toList) .nil none) .nil)
    none

/-- The namespace map lxml reports for the root of `treeNs`. -/
def nsmapNs : List (Option Str × Str) :=
  [(none, "http://d".toList), (some "p".toList, "http://p".toList)]

/-- The decomposition of `treeNs` under `nsmapNs`. -/
def docNs : StandoffDoc :=
  ⟨nsmapNs,
    [("http://d".toList, none), ("http://p".toList, some "p".toList)],
    "xy".toList,
    [⟨1, 2, "p:c".toList, [], 1, some 0, some 0⟩,
     ⟨0, 2, "r".toList, [], 0, some 0, some 1⟩]⟩

/-- The document `<a>x</a>`. -/
def treeSingle : XElem := .mk "a".toList [] (some "x".toList) .nil none

/-- The decomposition of `treeSingle`. -/
def docSingle : StandoffDoc :=
  ⟨[], [], "x".toList, [⟨0, 1, "a".toList, [], 0, some 0, some 0⟩]⟩

/-- The document `<a><b>x</b>y</a>` of the spec's running example. -/
def treeInline : XElem :=
  .mk "a".toList [] none
    (.cons (.mk "b".toList [] (some "x".toList) .nil (some "y".toList)) .nil)
    none

/-- The decomposition of `treeInline`. -/
def docInline : StandoffDoc :=
  ⟨[], [], "xy".toList,
    [⟨0, 1, "b".toList, [], 1, some 0, some 0⟩,
     ⟨0, 2, "a".toList, [], 0, some 0, some 0⟩]⟩

/-- C1: the round-trip claim fails on the code.  Decomposing the plain nested
document `<r><a><b>x</b></a><c>y</c></r>` and reconstructing it yields the
string `<r><a><b>x</b><c></a>y</c></r>`, in which `</a>` crosses `<c>`: the
result is not well-formed, the external `etree.fromstring` validation rejects
it, and `to_xml` raises instead of reproducing the document.  The cause: `a`
inherits `end_sort = 1` from its child `b` ending at the same offset, and the
final sort of `render_tags` uses that ordinal as its primary key, pushing the
closing `</a>` after the opening `<c>` (whose `begin_sort` is 0). -/
theorem C1_roundtrip_code_bug :
    standoffDoc_init [] treeNested = .ok docNested
    ∧ out_xml docNested = .ok "<r><a><b>x</b><c></a>y</c></r>".toList := by
  decide

/-- C2: counterexample.  At offset 1 of the decomposition of
`<r><a><b>x</b></a><c>y</c></r>`, `render_tags` emits the annotations in the
order `b, c, a`: the closing annotation `a` (`end = 1`, `begin ≠ 1`) is
emitted *after* the opening annotation `c` (`begin = 1`), because the final
sort uses `begin_sort`/`end_sort` as its primary key rather than as a
tie-break after the depth ordering.  This falsifies "all annotations whose
end equals that offset are emitted as closing tags before any opening or
self-closing tag at that offset". -/
theorem C2_counterexample :
    render_order docNested.standoffs 1 = [annB1, annC1, annA1]
    ∧ (annA1.end_ = 1 ∧ annA1.begin ≠ 1)
    ∧ (annC1.begin = 1 ∧ annC1.end_ ≠ 1)
    ∧ render_tags docNested.reverse_nsmap docNested.standoffs 1 =
        .ok "</b><c></a>".toList := by
  decide

/-- C3: counterexample.  The decomposition of a document using a default and
a prefixed namespace reconstructs with *no* namespace declaration at all:
`to_xml` contains no namespace-reattachment logic, so the output
`<r>x<p:c>y</p:c></r>` has no `xmlns` pseudo-attribute anywhere, contradicting
the claim that both declarations are present on the root element. -/
theorem C3_counterexample :
    standoffDoc_init nsmapNs treeNs = .ok docNs
    ∧ out_xml docNs = .ok "<r>x<p:c>y</p:c></r>".toList
    ∧ ¬ List.IsInfix "xmlns".toList "<r>x<p:c>y</p:c></r>".toList := by
  decide

/-- C3 (amended): reconstruction adds no namespace declarations.  `to_xml`
never reads the document's namespace map (`out_xml` is invariant under
replacing it), and the namespaced example document reconstructs to
`<r>x<p:c>y</p:c></r>`, whose prefixes come only from the decomposition-time
`proc_ns` resolution of the tags. -/
theorem C3_no_xmlns_amended :
    (∀ (d : StandoffDoc) (m : List (Option Str × Str)),
        out_xml (set_nsmap d m) = out_xml d)
    ∧ standoffDoc_init nsmapNs treeNs = .ok docNs
    ∧ out_xml docNs = .ok "<r>x<p:c>y</p:c></r>".toList := by
  refine ⟨fun d m => rfl, ?_, ?_⟩ <;> decide

/-- C4: the decomposition half of the claim holds — `<a><b/></a>` flattens to
the empty string with zero-width annotations `b` (depth 1) and `a` (depth 0),
appended in that order — but the reconstruction half fails: the emission loop
iterates over the characters of the empty flat text (zero iterations) and the
final `render_closing_tags(-1)` reads only `standoff_end_lookup`, in which
zero-width annotations were never stored.  `out_xml` is therefore the empty
string, not `<a><b/></a>`, and the external parse of `''` raises. -/
theorem C4_empty_element_code_bug :
    standoffDoc_init [] treeEmptyChild = .ok docEmptyChild
    ∧ docEmptyChild.plain_text = []
    ∧ docEmptyChild.standoffs =
        [⟨0, 0, "b".toList, [], 1, some 0, some 0⟩,
         ⟨0, 0, "a".toList, [], 0, some 0, some 1⟩]
    ∧ out_xml docEmptyChild = .ok []
    ∧ ("<a><b/></a>".toList : Str) ≠ [] := by
  decide

/-- C5: counterexample.  `add_annotation` performs no validation of the
offsets: starting from the decomposition of `<a>x</a>` (flat text of length
1), adding an annotation with `end = 5` stores an entry whose `end` exceeds
the flat-text length, and adding one with `begin = 5, end = 2` stores an
entry with `begin > end`. -/
theorem C5_counterexample :
    standoffDoc_init [] treeSingle = .ok docSingle
    ∧ ¬ (∀ s ∈ add_annot docSingle.standoffs 0 5 "b".toList none [],
          s.begin ≤ s.end_ ∧ s.end_ ≤ docSingle.plain_text.length)
    ∧ ¬ (∀ s ∈ add_annot docSingle.standoffs 5 2 "b".toList none [],
          s.begin ≤ s.end_) := by
  decide

/-- C6: counterexample.  Attribute values are embedded verbatim by
`render_attribs`: a value consisting of one double quote renders as
` k="""` — three literal quote characters — and not as the escaped
` k="&quot;"` the claim requires. -/
theorem C6_counterexample :
    render_attribs [] [("k".toList, ['"'])] = .ok " k=\"\"\"".toList
    ∧ render_attribs [] [("k".toList, ['"'])] ≠ .ok " k=\"&quot;\"".toList := by
  decide

/-- C10: `to_xml` never mutates the store.  In the state-passing embedding of
the method (annotation list and flat text are the document's state, every
assignment in `to_xml` targets a local), the resulting document equals the
input document for every external validator outcome, including parse
failures of the synthesized string. -/
theorem C10_to_xml_preserves_state (validate : Str → Except Unit Str)
    (d : StandoffDoc) : (to_xml_run validate d).fst = d := rfl

mutual

/-- State evolution of `parse_element`: the text buffer only grows, and every
annotation in the output store is either inherited from the input store or has
offsets bounded by the input and output buffer lengths. -/
theorem parse_element_state (rns : List (Str × Option Str)) (e : XElem)
    (depth : Nat) (pt : Str) (so : List Standoff) :
    ∀ pt' so', parse_element rns e depth pt so = .ok (pt', so') →
      pt.length ≤ pt'.length ∧
        ∀ s ∈ so', s ∈ so ∨
          (pt.length ≤ s.begin ∧ s.begin ≤ s.end_ ∧ s.end_ ≤ pt'.length) := by
  cases e with
  | mk tag attrib text children tail =>
    intro pt' so' h
    simp only [parse_element] at h
    split at h
    · exact absurd h (by simp)
    · split at h
      · exact absurd h (by simp)
      · rename_i ptag hptag pr pt2 so2 hchildren
        have ih := parse_children_state rns children (depth + 1)
          (pt ++ xml_safe text) so pt2 so2 hchildren
        simp only [Except.ok.injEq, Prod.mk.injEq] at h
        obtain ⟨rfl, rfl⟩ := h
        obtain ⟨hlen, hmem⟩ := ih
        simp only [List.length_append] at hlen
        refine ⟨by simp only [List.length_append]; omega, ?_⟩
        intro s hs
        rcases List.mem_append.mp hs with hs | hs
        · rcases hmem s hs with hs' | hb
          · exact Or.inl hs'
          · obtain ⟨h1, h2, h3⟩ := hb
            simp only [List.length_append] at h1 h3 ⊢
            exact Or.inr ⟨by omega, h2, by omega⟩
        · rw [List.mem_singleton] at hs
          subst hs
          refine Or.inr ⟨le_refl _, ?_, ?_⟩
          · show pt.length ≤ pt2.length
            omega
          · show pt2.length ≤ (pt2 ++ xml_safe tail).length
            simp only [List.length_append]
            omega

/-- State evolution of the child loop of `parse_element` (mutual companion of
`parse_element_state`). -/
theorem parse_children_state (rns : List (Str × Option Str)) (es : XElemList)
    (depth : Nat) (pt : Str) (so : List Standoff) :
    ∀ pt' so', parse_children rns es depth pt so = .ok (pt', so') →
      pt.length ≤ pt'.length ∧
        ∀ s ∈ so', s ∈ so ∨
          (pt.length ≤ s.begin ∧ s.begin ≤ s.end_ ∧ s.end_ ≤ pt'.length) := by
  cases es with
  | nil =>
    intro pt' so' h
    simp only [parse_children, Except.ok.injEq, Prod.mk.injEq] at h
    obtain ⟨rfl, rfl⟩ := h
    exact ⟨le_refl _, fun s hs => Or.inl hs⟩
  | cons e rest =>
    intro pt' so' h
    simp only [parse_children] at h
    split at h
    · exact absurd h (by simp)
    · rename_i pr pt1 so1 helem
      obtain ⟨hl1, hm1⟩ := parse_element_state rns e depth pt so pt1 so1 helem
      obtain ⟨hl2, hm2⟩ := parse_children_state rns rest depth pt1 so1 pt' so' h
      refine ⟨le_trans hl1 hl2, ?_⟩
      intro s hs
      rcases hm2 s hs with hs' | hb
      · rcases hm1 s hs' with hs'' | hb'
        · exact Or.inl hs''
        · exact Or.inr ⟨hb'.1, hb'.2.1, le_trans hb'.2.2 hl2⟩
      · exact Or.inr ⟨le_trans hl1 hb.1, hb.2.1, hb.2.2⟩

end

/-- C5 (amended): every annotation produced by decomposition satisfies
`0 <= begin <= end <= len(flat_text)` (the lower bound is inherent in the
`Nat` offsets produced by `len`).  The original claim extends this to
annotations appended via `add_annotation`, which validates nothing — see the
counterexample. -/
theorem C5_decomposition_offsets (nsmap : List (Option Str × Str))
    (root : XElem) (d : StandoffDoc)
    (h : standoffDoc_init nsmap root = .ok d) :
    ∀ s ∈ d.standoffs, s.begin ≤ s.end_ ∧ s.end_ ≤ d.plain_text.length := by
  simp only [standoffDoc_init] at h
  split at h
  · exact absurd h (by simp)
  · rename_i pr pt so hparse
    simp only [Except.ok.injEq] at h
    subst h
    intro s hs
    rcases (parse_element_state _ root 0 [] [] pt so hparse).2 s hs with h' | h'
    · simp at h'
    · exact ⟨h'.2.1, h'.2.2⟩

/-- C5 witness: the amended theorem applied to the concrete decomposition of
`<a>x</a>` and its single annotation. -/
theorem C5_decomposition_offsets_witness :
    (⟨0, 1, "a".toList, [], 0, some 0, some 0⟩ : Standoff).begin ≤
        (⟨0, 1, "a".toList, [], 0, some 0, some 0⟩ : Standoff).end_ ∧
      (⟨0, 1, "a".toList, [], 0, some 0, some 0⟩ : Standoff).end_ ≤
        docSingle.plain_text.length :=
  C5_decomposition_offsets [] treeSingle docSingle (by decide)
    ⟨0, 1, "a".toList, [], 0, some 0, some 0⟩ (by decide)

mutual

/-- Post-order append: `parse_element` extends the store with the annotations
of the element's descendants (all of strictly greater depth) followed, last,
by the element's own annotation. -/
theorem parse_element_postorder (rns : List (Str × Option Str)) (e : XElem)
    (depth : Nat) (pt : Str) (so : List Standoff) :
    ∀ pt' so', parse_element rns e depth pt so = .ok (pt', so') →
      ∃ l a, so' = so ++ l ++ [a] ∧ a.depth = depth ∧ ∀ s ∈ l, depth < s.depth := by
  cases e with
  | mk tag attrib text children tail =>
    intro pt' so' h
    simp only [parse_element] at h
    split at h
    · exact absurd h (by simp)
    · split at h
      · exact absurd h (by simp)
      · rename_i ptag hptag pr pt2 so2 hchildren
        obtain ⟨l, hso2, hmem⟩ := parse_children_postorder rns children (depth + 1)
          (pt ++ xml_safe text) so pt2 so2 hchildren
        subst hso2
        simp only [Except.ok.injEq, Prod.mk.injEq] at h
        obtain ⟨rfl, rfl⟩ := h
        exact ⟨l, _, rfl, rfl, fun s hs => Nat.lt_of_succ_le (hmem s hs)⟩

/-- Post-order append for the child loop: only annotations of depth at least
the children's depth are added (mutual companion of
`parse_element_postorder`). -/
theorem parse_children_postorder (rns : List (Str × Option Str)) (es : XElemList)
    (depth : Nat) (pt : Str) (so : List Standoff) :
    ∀ pt' so', parse_children rns es depth pt so = .ok (pt', so') →
      ∃ l, so' = so ++ l ∧ ∀ s ∈ l, depth ≤ s.depth := by
  cases es with
  | nil =>
    intro pt' so' h
    simp only [parse_children, Except.ok.injEq, Prod.mk.injEq] at h
    obtain ⟨rfl, rfl⟩ := h
    exact ⟨[], by simp⟩
  | cons e rest =>
    intro pt' so' h
    simp only [parse_children] at h
    split at h
    · exact absurd h (by simp)
    · rename_i pr pt1 so1 helem
      obtain ⟨l1, a1, hso1, hd, hm1⟩ :=
        parse_element_postorder rns e depth pt so pt1 so1 helem
      subst hso1
      obtain ⟨l2, hso', hm2⟩ :=
        parse_children_postorder rns rest depth pt1 _ pt' so' h
      subst hso'
      refine ⟨l1 ++ [a1] ++ l2, by simp, ?_⟩
      intro s hs
      simp only [List.append_assoc, List.mem_append, List.mem_singleton] at hs
      rcases hs with hs | rfl | hs
      · exact Nat.le_of_lt (hm1 s hs)
      · exact Nat.le_of_eq hd.symm
      · exact hm2 s hs

end

/-- C8: decomposition appends each element's annotation in post-order — the
store grows by the descendants' annotations (all of strictly greater depth)
followed by the element's own — and, concretely, `<a><b>x</b>y</a>` flattens
to `"xy"` with annotations `b` (begin 0, end 1, depth 1) then `a` (begin 0,
end 2, depth 0), and `to_xml` synthesizes `<a><b>x</b>y</a>` (which the
external normalization pretty-prints unchanged up to whitespace). -/
theorem C8_decomposition_postorder :
    (∀ (rns : List (Str × Option Str)) (e : XElem) (depth : Nat) (pt : Str)
        (so : List Standoff) (pt' : Str) (so' : List Standoff),
        parse_element rns e depth pt so = .ok (pt', so') →
        ∃ l a, so' = so ++ l ++ [a] ∧ a.depth = depth ∧ ∀ s ∈ l, depth < s.depth)
    ∧ standoffDoc_init [] treeInline = .ok docInline
    ∧ docInline.plain_text = "xy".toList
    ∧ docInline.standoffs =
        [⟨0, 1, "b".toList, [], 1, some 0, some 0⟩,
         ⟨0, 2, "a".toList, [], 0, some 0, some 0⟩]
    ∧ out_xml docInline = .ok "<a><b>x</b>y</a>".toList :=
  ⟨fun rns e depth pt so pt' so' h =>
      parse_element_postorder rns e depth pt so pt' so' h,
    by decide, by decide, by decide, by decide⟩

/-- C8 witness: the post-order conjunct applied to the decomposition of
`<a><b>x</b>y</a>` from the empty store. -/
theorem C8_decomposition_postorder_witness :
    ∃ l a, docInline.standoffs = [] ++ l ++ [a] ∧ a.depth = 0 ∧
      ∀ s ∈ l, 0 < s.depth :=
  C8_decomposition_postorder.1 [] treeInline 0 [] [] docInline.plain_text
    docInline.standoffs (by decide)

/-- Splitting a brace-free string on `\x7d` returns the string whole. -/
theorem splitOnRBrace_no_brace (l : Str) (h : rbrace ∉ l) :
    splitOnRBrace l = [l] := by
  induction l with
  | nil => rfl
  | cons c cs ih =>
    simp only [List.mem_cons, not_or] at h
    simp only [splitOnRBrace, ih h.2, if_neg (Ne.symm h.1)]

/-- Splitting `uri ++ \x7d ++ local` on `\x7d` returns the two components
when neither contains a brace. -/
theorem splitOnRBrace_append (u loc : Str) (hu : rbrace ∉ u)
    (hl : rbrace ∉ loc) : splitOnRBrace (u ++ rbrace :: loc) = [u, loc] := by
  induction u with
  | nil =>
    simp [List.nil_append, splitOnRBrace, splitOnRBrace_no_brace loc hl]
  | cons c cu ih =>
    simp only [List.mem_cons, not_or] at hu
    simp only [List.cons_append, splitOnRBrace, List.append_eq, ih hu.2,
      if_neg (Ne.symm hu.1)]

/-- Evaluation of `proc_ns` on a well-formed namespaced name
`\x7buri\x7dlocal`: the XML-namespace special case first, then the reverse
map (a missing URI is the `KeyError`), then the default-prefix rule. -/
theorem proc_ns_eq (rns : List (Str × Option Str)) (uri loc : Str)
    (hu : rbrace ∉ uri) (hl : rbrace ∉ loc) :
    proc_ns rns (lbrace :: uri ++ rbrace :: loc) =
      if uri = xmlNsUri then .ok ("xml:".toList ++ loc)
      else
        match nsLookup uri rns with
        | none => .error .keyError
        | some none => .ok loc
        | some (some p) => .ok (p ++ ':' :: loc) := by
  have hmem : rbrace ∈ lbrace :: uri ++ rbrace :: loc := by simp
  have hdrop : (lbrace :: uri ++ rbrace :: loc).drop 1 = uri ++ rbrace :: loc := by
    simp
  simp only [proc_ns]
  rw [if_pos hmem, hdrop, splitOnRBrace_append uri loc hu hl]

/-- C9: for a well-formed name carrying URI `uri` and local part `loc`,
`proc_ns` raises the lookup error exactly when `uri` is missing from the
reverse namespace map and is not the XML namespace URI; the XML namespace
URI always yields prefix `xml` whatever the map; a URI mapped to the default
(`None`) prefix renders bare; a URI mapped to a prefix renders prefixed; and
a name without a brace passes through unchanged and never errors. -/
theorem C9_proc_ns_spec (rns : List (Str × Option Str)) (uri loc : Str)
    (hu : rbrace ∉ uri) (hl : rbrace ∉ loc) :
    (proc_ns rns (lbrace :: uri ++ rbrace :: loc) = .error .keyError ↔
        (nsLookup uri rns = none ∧ uri ≠ xmlNsUri))
    ∧ (uri = xmlNsUri →
        proc_ns rns (lbrace :: uri ++ rbrace :: loc) =
          .ok ("xml:".toList ++ loc))
    ∧ (nsLookup uri rns = some none → uri ≠ xmlNsUri →
        proc_ns rns (lbrace :: uri ++ rbrace :: loc) = .ok loc)
    ∧ (∀ p, nsLookup uri rns = some (some p) → uri ≠ xmlNsUri →
        proc_ns rns (lbrace :: uri ++ rbrace :: loc) = .ok (p ++ ':' :: loc))
    ∧ (∀ t : Str, rbrace ∉ t → proc_ns rns t = .ok t) := by
  have he := proc_ns_eq rns uri loc hu hl
  refine ⟨?_, ?_, ?_, ?_, ?_⟩
  · rw [he]
    by_cases hx : uri = xmlNsUri
    · simp [hx]
    · rw [if_neg hx]
      cases hns : nsLookup uri rns with
      | none => simp [hx]
      | some p =>
        cases p with
        | none => simp
        | some q => simp
  · intro hx
    rw [he, if_pos hx]
  · intro hns hx
    rw [he, if_neg hx, hns]
  · intro p hns hx
    rw [he, if_neg hx, hns]
  · intro t ht
    simp only [proc_ns, if_neg ht]

/-- C9 witness: with an *empty* namespace map, the XML-namespace URI still
resolves to the `xml` prefix. -/
theorem C9_proc_ns_spec_witness :
    proc_ns [] (lbrace :: xmlNsUri ++ rbrace :: "local".toList) =
      .ok ("xml:".toList ++ "local".toList) :=
  (C9_proc_ns_spec [] xmlNsUri "local".toList (by decide) (by decide)).2.1 rfl

/-- `replaceChar` distributes over concatenation. -/
theorem replaceChar_append (f : Char) (r a b : Str) :
    replaceChar f r (a ++ b) = replaceChar f r a ++ replaceChar f r b := by
  induction a with
  | nil => rfl
  | cons c cs ih =>
    simp only [List.cons_append, replaceChar, List.append_eq, ih, List.append_assoc]

/-- One step of the escape chain: the five sequential replacements process a
leading character into its entity (or leave it) and never touch the entities
produced for it, because `&` is replaced first. -/
theorem xml_safe_cons (c : Char) (t : Str) :
    xml_safe (some (c :: t)) = escapeChar c ++ xml_safe (some t) := by
  simp only [xml_safe]
  rw [show replaceChar '&' ("&amp;".toList) (c :: t) =
      (if c = '&' then "&amp;".toList else [c]) ++
        replaceChar '&' ("&amp;".toList) t from rfl]
  rw [replaceChar_append, replaceChar_append, replaceChar_append,
    replaceChar_append]
  congr 1
  by_cases h1 : c = '&'
  · subst h1
    decide
  · rw [if_neg h1]
    by_cases h2 : c = '"'
    · subst h2
      decide
    · by_cases h3 : c = aposChar
      · subst h3
        decide
      · by_cases h4 : c = '<'
        · subst h4
          decide
        · by_cases h5 : c = '>'
          · subst h5
            decide
          · simp [replaceChar, escapeChar, h1, h2, h3, h4, h5]

/-- The sequential escape chain equals a single-pass per-character escape:
replacing `&` first means no introduced entity is escaped again. -/
theorem xml_safe_eq_flatten (t : Str) :
    xml_safe (some t) = (t.map escapeChar).flatten := by
  induction t with
  | nil => rfl
  | cons c cs ih =>
    rw [xml_safe_cons, ih]
    simp [List.map_cons, List.flatten_cons]

/-- On a childless element, the buffer grows by exactly the escaped text
followed by the escaped tail. -/
theorem parse_element_leaf_text (rns : List (Str × Option Str)) (tag : Str)
    (attrib : List (Str × Str)) (text tail : Option Str) (depth : Nat)
    (pt : Str) (so : List Standoff) (pt' : Str) (so' : List Standoff)
    (h : parse_element rns (.mk tag attrib text .nil tail) depth pt so =
      .ok (pt', so')) :
    pt' = pt ++ xml_safe text ++ xml_safe tail := by
  simp only [parse_element, parse_children] at h
  split at h
  · exact absurd h (by simp)
  · simp only [Except.ok.injEq, Prod.mk.injEq] at h
    exact h.1.symm

/-- A single attribute renders with its value embedded verbatim after the
namespace-resolved key: no escaping is applied to `v`. -/
theorem render_attribs_single (rns : List (Str × Option Str)) (k v pk : Str)
    (h : proc_ns rns k = .ok pk) :
    render_attribs rns [(k, v)] =
      .ok (' ' :: (pk ++ '=' :: '"' :: v ++ ['"'])) := by
  simp [render_attribs, render_attrib_items, h, List.intercalate,
    List.intersperse]

/-- C6 (amended): the escape chain runs in exactly the claimed order and —
because `&` is replaced first — equals a single-pass per-character escape
(`escapeChar`); `None` text is the empty string; decomposition applies
`xml_safe` to element text and tails; but attribute values are embedded
verbatim by `render_attribs`, not escaped (see the counterexample for the
original claim). -/
theorem C6_escaping_amended :
    (∀ t : Str, xml_safe (some t) = (t.map escapeChar).flatten)
    ∧ xml_safe none = []
    ∧ (∀ (rns : List (Str × Option Str)) (tag : Str)
        (attrib : List (Str × Str)) (text tail : Option Str) (depth : Nat)
        (pt : Str) (so : List Standoff) (pt' : Str) (so' : List Standoff),
        parse_element rns (.mk tag attrib text .nil tail) depth pt so =
          .ok (pt', so') →
        pt' = pt ++ xml_safe text ++ xml_safe tail)
    ∧ (∀ (rns : List (Str × Option Str)) (k v pk : Str),
        proc_ns rns k = .ok pk →
        render_attribs rns [(k, v)] =
          .ok (' ' :: (pk ++ '=' :: '"' :: v ++ ['"']))) :=
  ⟨xml_safe_eq_flatten, rfl,
    fun rns tag attrib text tail depth pt so pt' so' h =>
      parse_element_leaf_text rns tag attrib text tail depth pt so pt' so' h,
    fun rns k v pk h => render_attribs_single rns k v pk h⟩

/-- C6 witness: the attribute-rendering conjunct applied to a value that is a
single double quote — it is embedded raw. -/
theorem C6_escaping_amended_witness :
    render_attribs [] [("k".toList, ['"'])] =
      .ok (' ' :: ("k".toList ++ '=' :: '"' :: ['"'] ++ ['"'])) :=
  C6_escaping_amended.2.2.2 [] "k".toList ['"'] "k".toList (by decide)

/-- If the keys of `b` are unique, membership of a pair determines the lookup
result. -/
theorem dictLookup_eq_some_of_mem (b : List (Str × Str)) (hb : nodupKeys b)
    (k v : Str) (h : (k, v) ∈ b) : dictLookup k b = some v := by
  induction b with
  | nil => simp at h
  | cons p t ih =>
    obtain ⟨k', v'⟩ := p
    simp only [nodupKeys, List.map_cons, List.nodup_cons] at hb
    rcases List.mem_cons.mp h with h' | h'
    · obtain ⟨rfl, rfl⟩ := Prod.mk.injEq .. ▸ h'
      simp [dictLookup]
    · have hk : k' ≠ k := by
        rintro rfl
        exact hb.1 (List.mem_map.mpr ⟨(k', v), h', rfl⟩)
      simp only [dictLookup, if_neg hk]
      exact ih hb.2 h'

/-- A successful lookup pair is a member of the association list. -/
theorem mem_of_dictLookup_eq_some (b : List (Str × Str)) (k v : Str)
    (h : dictLookup k b = some v) : (k, v) ∈ b := by
  induction b with
  | nil => simp [dictLookup] at h
  | cons p t ih =>
    obtain ⟨k', v'⟩ := p
    simp only [dictLookup] at h
    split at h
    · rename_i hk
      simp only [Option.some.injEq] at h
      subst h
      subst hk
      exact List.mem_cons_self _ _
    · exact List.mem_cons_of_mem _ (ih h)

/-- `attrs_equal` decides exact mapping equality up to ordering: for
duplicate-free key sets it holds exactly when the two association lists are
permutations of one another (size-and-content equality, not a subset check).
-/
theorem attrs_equal_iff_perm (a b : List (Str × Str)) (ha : nodupKeys a)
    (hb : nodupKeys b) : attrs_equal a b = true ↔ a.Perm b := by
  simp only [attrs_equal, Bool.and_eq_true, beq_iff_eq]
  constructor
  · rintro ⟨hlen, hshared⟩
    have hall : ∀ kv ∈ a,
        (match dictLookup kv.1 b with
          | some w => decide (w = kv.2)
          | none => false) = true := by
      refine List.filter_length_eq_length.mp ?_
      omega
    have hsub : a ⊆ b := by
      intro kv hkv
      obtain ⟨k, v⟩ := kv
      have := hall (k, v) hkv
      split at this
      · rename_i w hw
        have : w = v := of_decide_eq_true this
        subst this
        exact mem_of_dictLookup_eq_some b k w hw
      · simp at this
    have hnd : a.Nodup := List.Nodup.of_map Prod.fst ha
    exact (List.subperm_of_subset hnd hsub).perm_of_length_le
      (le_of_eq hlen.symm)
  · intro hperm
    have hlen := hperm.length_eq
    refine ⟨hlen, ?_⟩
    have hall : ∀ kv ∈ a,
        (match dictLookup kv.1 b with
          | some w => decide (w = kv.2)
          | none => false) = true := by
      intro kv hkv
      obtain ⟨k, v⟩ := kv
      have hmem : (k, v) ∈ b := hperm.subset hkv
      rw [dictLookup_eq_some_of_mem b hb k v hmem]
      simp
    rw [List.filter_length_eq_length.mpr hall]
    omega

/-- `attrs_equal` is reflexive on duplicate-free mappings. -/
theorem attrs_equal_refl (a : List (Str × Str)) (ha : nodupKeys a) :
    attrs_equal a a = true :=
  (attrs_equal_iff_perm a a ha ha).mpr (List.Perm.refl a)

/-- `is_duplicate_annotation` is false exactly when no annotation matches. -/
theorem is_duplicate_false_iff (so : List Standoff) (b e : Nat) (tag : Str)
    (at_ : List (Str × Str)) :
    is_duplicate_annot so b e tag at_ = false ↔
      matching_count so b e tag at_ = 0 := by
  simp [is_duplicate_annot, matching_count, List.any_eq_false,
    List.length_eq_zero, List.filter_eq_nil_iff]

/-- C7: with duplicate-free attributes and no pre-existing match, two
`unique=True` insertions of the same `(begin, end, tag, attrib)` leave exactly
one matching annotation, and two `unique=False` insertions leave two; and the
duplicate test's attribute comparison is order-independent size-and-content
equality of the mappings (permutation of the key/value pairs, never a subset
check). -/
theorem C7_add_annot_dedup :
    (∀ u v : List (Str × Str), nodupKeys u → nodupKeys v →
        (attrs_equal u v = true ↔ u.Perm v))
    ∧ (∀ (so : List Standoff) (b e : Nat) (tag : Str) (depth : Option Nat)
        (at_ : List (Str × Str)), nodupKeys at_ →
        is_duplicate_annot so b e tag at_ = false →
        matching_count
            (add_annot (add_annot so b e tag depth at_) b e tag depth
              at_) b e tag at_ = 1
          ∧ matching_count
              (add_annot (add_annot so b e tag depth at_ false) b e
                tag depth at_ false) b e tag at_ = 2) := by
  refine ⟨attrs_equal_iff_perm, ?_⟩
  intro so b e tag depth at_ hnd hdup
  have hcount : matching_count so b e tag at_ = 0 :=
    (is_duplicate_false_iff so b e tag at_).mp hdup
  simp only [matching_count] at hcount
  have hfilter : List.filter
      (fun s : Standoff => s.begin == b && s.end_ == e && s.tag == tag &&
        attrs_equal at_ s.attrib)
      [⟨b, e, tag, at_, depth.getD 0, none, none⟩] =
      [⟨b, e, tag, at_, depth.getD 0, none, none⟩] := by
    simp [attrs_equal_refl at_ hnd]
  constructor
  · have hadd1 : add_annot so b e tag depth at_ =
        so ++ [⟨b, e, tag, at_, depth.getD 0, none, none⟩] := by
      simp [add_annot, hdup]
    have hdup2 : is_duplicate_annot
        (so ++ [⟨b, e, tag, at_, depth.getD 0, none, none⟩]) b e tag at_ =
          true := by
      simp only [is_duplicate_annot, List.any_append, List.any_cons,
        List.any_nil, Bool.or_eq_true]
      right
      left
      simp [attrs_equal_refl at_ hnd]
    have hadd2 : add_annot
        (so ++ [⟨b, e, tag, at_, depth.getD 0, none, none⟩]) b e tag depth
          at_ = so ++ [⟨b, e, tag, at_, depth.getD 0, none, none⟩] := by
      simp [add_annot, hdup2]
    rw [hadd1, hadd2]
    simp only [matching_count, List.filter_append, hfilter,
      List.length_append, hcount, List.length_cons, List.length_nil]
  · have hadd1 : add_annot so b e tag depth at_ false =
        so ++ [⟨b, e, tag, at_, depth.getD 0, none, none⟩] := by
      simp [add_annot]
    have hadd2 : add_annot
        (so ++ [⟨b, e, tag, at_, depth.getD 0, none, none⟩]) b e tag depth
          at_ false =
        so ++ [⟨b, e, tag, at_, depth.getD 0, none, none⟩] ++
          [⟨b, e, tag, at_, depth.getD 0, none, none⟩] := by
      simp [add_annot]
    rw [hadd1, hadd2]
    simp only [matching_count, List.filter_append, hfilter,
      List.length_append, hcount, List.length_cons, List.length_nil]

/-- C7 witness: the dedup conjunct applied to a fresh store and the concrete
annotation `(0, 1, "t", [("k","v")])`. -/
theorem C7_add_annot_dedup_witness :
    matching_count
        (add_annot
          (add_annot [] 0 1 "t".toList none [("k".toList, "v".toList)]) 0
          1 "t".toList none [("k".toList, "v".toList)]) 0 1 "t".toList
        [("k".toList, "v".toList)] = 1
      ∧ matching_count
          (add_annot
            (add_annot [] 0 1 "t".toList none [("k".toList, "v".toList)]
              false) 0 1 "t".toList none [("k".toList, "v".toList)] false) 0 1
          "t".toList [("k".toList, "v".toList)] = 2 :=
  C7_add_annot_dedup.2 [] 0 1 "t".toList none [("k".toList, "v".toList)]
    (by unfold nodupKeys; decide) (by decide)

/-- `pyInsert` only repositions the inserted element: the result is a
permutation of consing it in front. -/
theorem pyInsert_perm {α : Type} (le : α → α → Bool) (x : α) (l : List α) :
    (pyInsert le x l).Perm (x :: l) := by
  induction l with
  | nil => exact List.Perm.refl _
  | cons y ys ih =>
    simp only [pyInsert]
    split
    · exact List.Perm.refl _
    · exact (ih.cons y).trans (List.Perm.swap x y ys)

/-- `pySorted` permutes its input. -/
theorem pySorted_perm {α : Type} (le : α → α → Bool) (l : List α) :
    (pySorted le l).Perm l := by
  induction l with
  | nil => exact List.Perm.refl _
  | cons x xs ih =>
    exact (pyInsert_perm le x (pySorted le xs)).trans (ih.cons x)

/-- Inserting into a `le`-sorted list keeps it sorted, for a total transitive
comparator. -/
theorem pyInsert_pairwise {α : Type} (le : α → α → Bool)
    (htot : ∀ a b, le a b = true ∨ le b a = true)
    (htrans : ∀ a b c, le a b = true → le b c = true → le a c = true)
    (x : α) (l : List α) (h : l.Pairwise (fun a b => le a b = true)) :
    (pyInsert le x l).Pairwise (fun a b => le a b = true) := by
  induction l with
  | nil => simp [pyInsert]
  | cons y ys ih =>
    rw [List.pairwise_cons] at h
    obtain ⟨hy, hys⟩ := h
    simp only [pyInsert]
    split
    · rename_i hxy
      rw [List.pairwise_cons]
      refine ⟨?_, List.pairwise_cons.mpr ⟨hy, hys⟩⟩
      intro z hz
      rcases List.mem_cons.mp hz with rfl | hz
      · exact hxy
      · exact htrans x y z hxy (hy z hz)
    · rename_i hxy
      rw [List.pairwise_cons]
      constructor
      · intro z hz
        rcases (pyInsert_perm le x ys).mem_iff.mp hz with hz'
        rcases List.mem_cons.mp hz' with rfl | hz''
        · rcases htot z y with h' | h'
          · exact absurd h' hxy
          · exact h'
        · exact hy z hz''
      · exact ih hys

/-- `pySorted` sorts, for a total transitive comparator. -/
theorem pySorted_pairwise {α : Type} (le : α → α → Bool)
    (htot : ∀ a b, le a b = true ∨ le b a = true)
    (htrans : ∀ a b c, le a b = true → le b c = true → le a c = true)
    (l : List α) :
    (pySorted le l).Pairwise (fun a b => le a b = true) := by
  induction l with
  | nil => simp [pySorted]
  | cons x xs ih => exact pyInsert_pairwise le htot htrans x (pySorted le xs) ih

/-- Stability of keyed insertion, phrased through filters: the elements of any
single key class keep their relative order, with the inserted element in
front of its class.  (The skipped prefix has strictly smaller keys, hence a
different key.) -/
theorem pyInsert_filter_key {α : Type} (f : α → Nat) (k : Nat) (x : α)
    (l : List α) :
    (pyInsert (fun a b => decide (f a ≤ f b)) x l).filter
        (fun z => f z == k) =
      if f x == k then x :: l.filter (fun z => f z == k)
      else l.filter (fun z => f z == k) := by
  induction l with
  | nil =>
    by_cases hk : f x = k
    · simp [pyInsert, List.filter_cons, hk]
    · simp [pyInsert, List.filter_cons, hk]
  | cons y ys ih =>
    simp only [pyInsert]
    split
    · rename_i hxy
      by_cases hk : f x = k
      · simp [List.filter_cons, hk]
      · simp [List.filter_cons, hk]
    · rename_i hxy
      have hlt : f y < f x := by
        rcases Nat.lt_or_ge (f y) (f x) with h' | h'
        · exact h'
        · exact absurd (decide_eq_true h') hxy
      by_cases hk : f x = k
      · have hyk : f y ≠ k := by omega
        simp [List.filter_cons, ih, hk, hyk]
      · simp [List.filter_cons, ih, hk]

/-- Stability of the keyed Python sort: filtering a key class out of the
sorted list returns exactly the original relative order of that class. -/
theorem pySorted_filter_key {α : Type} (f : α → Nat) (k : Nat) (l : List α) :
    (pySorted (fun a b => decide (f a ≤ f b)) l).filter (fun z => f z == k) =
      l.filter (fun z => f z == k) := by
  induction l with
  | nil => rfl
  | cons x xs ih =>
    show (pyInsert _ x (pySorted _ xs)).filter _ = _
    rw [pyInsert_filter_key f k x (pySorted (fun a b => decide (f a ≤ f b)) xs)]
    by_cases hk : f x = k
    · simp [List.filter_cons, hk, ih]
    · simp [List.filter_cons, hk, ih]

/-- C2 (amended): at every offset `render_tags` emits the annotations ordered
primarily by their ordinal (`begin_sort` for annotations whose `begin` equals
the offset — openers and empties — and `end_sort` for the closing ones); the
whole emission is a permutation of the offset's closing, empty and opening
annotations; and only *within a single ordinal class* do the closing
annotations (a descending-depth permutation of that class's closers) precede
the empty-plus-opening annotations (an ascending-depth permutation of the
rest), by stability of the final sort. -/
theorem C2_render_order_amended (so : List Standoff) (idx : Nat) :
    List.Pairwise (fun a b => sort_key idx a ≤ sort_key idx b)
      (render_order so idx)
    ∧ (render_order so idx).Perm
        (standoff_end_lookup so idx ++
          (standoff_empty_lookup so idx ++ standoff_begin_lookup so idx))
    ∧ ∀ k : Nat, ∃ c o,
        (render_order so idx).filter (fun s => sort_key idx s == k) = c ++ o
        ∧ c.Perm ((standoff_end_lookup so idx).filter
            (fun s => sort_key idx s == k))
        ∧ o.Perm ((standoff_empty_lookup so idx ++
            standoff_begin_lookup so idx).filter
            (fun s => sort_key idx s == k))
        ∧ List.Pairwise (fun a b => b.depth ≤ a.depth) c
        ∧ List.Pairwise (fun a b => a.depth ≤ b.depth) o
        ∧ (∀ s ∈ c, s.end_ = idx ∧ s.begin ≠ idx)
        ∧ (∀ s ∈ o, s.begin = idx) := by
  have htotK : ∀ a b, key_le idx a b = true ∨ key_le idx b a = true := by
    intro a b
    simp only [key_le, decide_eq_true_eq]
    omega
  have htransK : ∀ a b c, key_le idx a b = true → key_le idx b c = true →
      key_le idx a c = true := by
    intro a b c
    simp only [key_le, decide_eq_true_eq]
    omega
  have htotD : ∀ a b : Standoff, depth_desc a b = true ∨ depth_desc b a = true := by
    intro a b
    simp only [depth_desc, decide_eq_true_eq]
    omega
  have htransD : ∀ a b c : Standoff, depth_desc a b = true →
      depth_desc b c = true → depth_desc a c = true := by
    intro a b c
    simp only [depth_desc, decide_eq_true_eq]
    omega
  have htotA : ∀ a b : Standoff, depth_asc a b = true ∨ depth_asc b a = true := by
    intro a b
    simp only [depth_asc, decide_eq_true_eq]
    omega
  have htransA : ∀ a b c : Standoff, depth_asc a b = true →
      depth_asc b c = true → depth_asc a c = true := by
    intro a b c
    simp only [depth_asc, decide_eq_true_eq]
    omega
  refine ⟨?_, ?_, ?_⟩
  · exact (pySorted_pairwise (key_le idx) htotK htransK _).imp
      fun h => by simpa [key_le] using h
  · refine (pySorted_perm _ _).trans ?_
    exact List.Perm.append (pySorted_perm _ _) (pySorted_perm _ _)
  · intro k
    refine ⟨(pySorted depth_desc (standoff_end_lookup so idx)).filter
        (fun s => sort_key idx s == k),
      (pySorted depth_asc (standoff_empty_lookup so idx ++
        standoff_begin_lookup so idx)).filter
        (fun s => sort_key idx s == k), ?_, ?_, ?_, ?_, ?_, ?_, ?_⟩
    · rw [show render_order so idx =
          pySorted (fun a b => decide (sort_key idx a ≤ sort_key idx b))
            (pySorted depth_desc (standoff_end_lookup so idx) ++
              pySorted depth_asc (standoff_empty_lookup so idx ++
                standoff_begin_lookup so idx)) from rfl]
      rw [pySorted_filter_key (sort_key idx) k, List.filter_append]
    · exact List.Perm.filter _ (pySorted_perm _ _)
    · exact List.Perm.filter _ (pySorted_perm _ _)
    · refine List.Pairwise.sublist (List.filter_sublist _) ?_
      exact (pySorted_pairwise depth_desc htotD htransD _).imp
        fun h => by simpa [depth_desc] using h
    · refine List.Pairwise.sublist (List.filter_sublist _) ?_
      exact (pySorted_pairwise depth_asc htotA htransA _).imp
        fun h => by simpa [depth_asc] using h
    · intro s hs
      have hs' : s ∈ standoff_end_lookup so idx :=
        (pySorted_perm depth_desc _).subset (List.mem_of_mem_filter hs)
      simp only [standoff_end_lookup, List.mem_filter, Bool.and_eq_true,
        Bool.not_eq_true', beq_eq_false_iff_ne, beq_iff_eq] at hs'
      exact ⟨hs'.2.2, fun hb => hs'.2.1 (hb.trans hs'.2.2.symm)⟩
    · intro s hs
      have hs' : s ∈ standoff_empty_lookup so idx ++
          standoff_begin_lookup so idx :=
        (pySorted_perm depth_asc _).subset (List.mem_of_mem_filter hs)
      rcases List.mem_append.mp hs' with hs'' | hs''
      · simp only [standoff_empty_lookup, List.mem_filter, Bool.and_eq_true,
          beq_iff_eq] at hs''
        exact hs''.2.2
      · simp only [standoff_begin_lookup, List.mem_filter, Bool.and_eq_true,
          beq_iff_eq] at hs''
        exact hs''.2.2
